import Mathlib

/-!
# Koine phrase flashcard app — verification of the core logic

Shallow embedding of the logic in `src/app.py`: the deck loader
(`load_deck_file`), the filter predicate (`match` / the `filtered` list
comprehension), the mastery session engine (`start_mastery_session`,
`reshuffle_session`, `mark_correct`, `mark_incorrect`, `end_session`,
`browse_next`, `bump_stat`) and the summary accuracy computation.

Python strings are modelled as Lean `String`; `str.strip`, `str.lower` and the
substring operator `in` are re-implemented over `String.data` (lists of
characters) so that every definition evaluates by kernel reduction.  Python
sets become `Finset String`, dicts with insertion order become association
lists, and `random.shuffle` is modelled by passing the shuffled list
explicitly, quantified over all permutations of the input.
-/

namespace KoineApp

/-! ## Python string primitives -/

/-- Python `str.lower()` applied characterwise (`Char.toLower`; ASCII case
folding — the case table itself is irrelevant to the properties proved here). -/
def pyLower (s : String) : String := ⟨s.data.map Char.toLower⟩

/-- Python `str.strip()`: remove leading and trailing whitespace. -/
def pyStrip (s : String) : String :=
  ⟨((s.data.dropWhile Char.isWhitespace).reverse.dropWhile Char.isWhitespace).reverse⟩

/-- Does the first character list occur at the head of the second? -/
def leadsWith : List Char → List Char → Bool
  | [], _ => true
  | _ :: _, [] => false
  | a :: as, b :: bs => a == b && leadsWith as bs

/-- Does `n` occur as a contiguous run anywhere in the second list? -/
def occursInChars (n : List Char) : List Char → Bool
  | [] => n.isEmpty
  | c :: cs => leadsWith n (c :: cs) || occursInChars n cs

/-- Python `needle in hay` on strings: contiguous substring test. -/
def pyIn (needle hay : String) : Bool := occursInChars needle.data hay.data

/-! ## Data model -/

/-- A parsing-meta value: a string or a list of strings (`meta` dict values). -/
inductive MetaVal where
  | str (v : String)
  | strs (vs : List String)
deriving DecidableEq

/-- The `meta` field of a raw deck record, before normalization.  `missing`
covers both an absent key and JSON `null`; `nonDict` covers any other
non-object JSON value. -/
inductive MetaField where
  | missing
  | dict (entries : List (String × MetaVal))
  | nonDict
deriving DecidableEq

/-- A record-like object from a deck JSON file.  `none` models a missing key
or `null` (Python falsy, like the empty string, under `p.get(k) or ""`). -/
structure RawRecord where
  id : Option String
  koine : Option String
  english : Option String
  tag : Option String
  audio : Option String
  image : Option String
  meta : MetaField
deriving DecidableEq

/-- One element of the decoded deck JSON list: either a record-like object or
some other JSON value (skipped by the loader). -/
inductive Entry where
  | obj (r : RawRecord)
  | nonObj
deriving DecidableEq

/-- A normalized phrase as produced by `load_deck_file`. -/
structure Phrase where
  id : String
  deck : String
  koine : String
  english : String
  tag : Option String
  audio : Option String
  image : Option String
  meta : Option (List (String × MetaVal))
deriving DecidableEq

/-- A finished-session summary (`st.session_state.finished_summary`). -/
structure Summary where
  total : Nat
  correct : Nat
  incorrect : Nat
  repeat_events : Nat
deriving DecidableEq

/-! ## Deck loader (`load_deck_file`) -/

/-- Python `f"{n:04d}"`: decimal digits of `n`, zero-padded to width 4. -/
def pad4 (n : Nat) : String :=
  String.mk (List.replicate (4 - (toString n).length) '0') ++ toString n

/-- `str(p.get("id") or f"{i+1:04d}").strip() or f"{i+1:04d}"`: the per-deck
base id of the record at index `i`.  (When the `id` field is falsy the default
is used; the default consists of digits, so stripping it is the identity.) -/
def resolveBaseId (i : Nat) (idField : Option String) : String :=
  let raw := idField.getD ""
  if raw = "" then pad4 (i + 1)
  else
    let t := pyStrip raw
    if t = "" then pad4 (i + 1) else t

/-- Field normalization applied to a retained record at index `i`. -/
def normalizeRecord (deckName : String) (i : Nat) (r : RawRecord) : Phrase :=
  { id := deckName ++ ":" ++ resolveBaseId i r.id
    deck := deckName
    koine := pyStrip (r.koine.getD "")
    english := pyStrip (r.english.getD "")
    tag := let t := pyStrip (r.tag.getD ""); if t = "" then none else some t
    audio := let t := pyStrip (r.audio.getD ""); if t = "" then none else some t
    image := let t := pyStrip (r.image.getD ""); if t = "" then none else some t
    meta := match r.meta with
      | .dict d => some d
      | _ => none }

/-- The loader's `for i, p in enumerate(raw)` loop, carrying the index. -/
def loadDeckAux (deckName : String) : Nat → List Entry → List Phrase
  | _, [] => []
  | i, .nonObj :: rest => loadDeckAux deckName (i + 1) rest
  | i, .obj r :: rest =>
    let p := normalizeRecord deckName i r
    if p.koine = "" ∧ p.english = "" then loadDeckAux deckName (i + 1) rest
    else p :: loadDeckAux deckName (i + 1) rest

/-- `load_deck_file`, applied to an already-decoded JSON list (the non-list
case raises `ValueError` before this loop and is outside the embedded logic). -/
def load_deck_file (deckName : String) (entries : List Entry) : List Phrase :=
  loadDeckAux deckName 0 entries

/-- Loading several decks: `phrases.extend(load_deck_file(path))` per source. -/
def load_decks (decks : List (String × List Entry)) : List Phrase :=
  (decks.map (fun d => load_deck_file d.1 d.2)).flatten

/-- The base ids the loader resolves for the object entries of one deck, in
order, indexed as by `enumerate` (non-object entries consume an index too). -/
def baseIdsAux : Nat → List Entry → List String
  | _, [] => []
  | i, .nonObj :: rest => baseIdsAux (i + 1) rest
  | i, .obj r :: rest => resolveBaseId i r.id :: baseIdsAux (i + 1) rest

/-- Resolved base ids of a deck's object entries. -/
def deckBaseIds (entries : List Entry) : List String := baseIdsAux 0 entries

/-! ## Filter (`match` and the `filtered` comprehension) -/

/-- The `match(p)` predicate, with the ambient `q`, `fav_only` and
`st.session_state.favs` passed explicitly. -/
def phrase_match (q : String) (fav_only : Bool) (favs : Finset String)
    (p : Phrase) : Bool :=
  if fav_only = true ∧ p.id ∉ favs then false
  else if pyStrip q ≠ "" then
    let needle := pyLower (pyStrip q)
    pyIn needle (pyLower p.koine) || pyIn needle (pyLower p.english)
  else true

/-- `filtered = [p for p in phrases if match(p)]`. -/
def filtered_phrases (phrases : List Phrase) (q : String) (fav_only : Bool)
    (favs : Finset String) : List Phrase :=
  phrases.filter (phrase_match q fav_only favs)

/-- Modelled from the spec's matching rule (for comparison with the code's
`match`): a phrase matches iff the query is empty after trimming or the
lowercased trimmed query occurs in the lowercased primary text or the
lowercased gloss text, and, when `favoritesOnly` is set, the phrase id is in
the favorite set. -/
def spec_match (q : String) (fav_only : Bool) (favs : Finset String)
    (p : Phrase) : Prop :=
  (pyStrip q = "" ∨
    pyIn (pyLower (pyStrip q)) (pyLower p.koine) = true ∨
    pyIn (pyLower (pyStrip q)) (pyLower p.english) = true) ∧
  (fav_only = true → p.id ∈ favs)

/-! ## Mastery session engine -/

/-- The engine-relevant slice of `st.session_state`.  Lifetime stats are an
association list `(phrase id, correct count, incorrect count)` in insertion
order, mirroring the persisted dict. -/
structure SessionState where
  in_session : Bool
  queue : List String
  session_correct : Finset String
  session_incorrect : Finset String
  repeat_events : Nat
  session_total : Nat
  finished_summary : Option Summary
  selected_id : Option String
  revealed : Bool
  auto_hide_on_next : Bool
  stats : List (String × Nat × Nat)
deriving DecidableEq

/-- The state set up by `ss_init` with empty persisted stores. -/
def initState : SessionState :=
  { in_session := false
    queue := []
    session_correct := ∅
    session_incorrect := ∅
    repeat_events := 0
    session_total := 0
    finished_summary := none
    selected_id := none
    revealed := false
    auto_hide_on_next := true
    stats := [] }

/-- `bump_stat(pid, key)`: increment one counter of the record for `pid`,
creating a zero-initialized record at the end (dict insertion order) when
absent.  `isCorrect` selects between the `"correct"` and `"incorrect"` keys. -/
def bump_stat : List (String × Nat × Nat) → String → Bool → List (String × Nat × Nat)
  | [], pid, isCorrect =>
    [(pid, (if isCorrect then 1 else 0), (if isCorrect then 0 else 1))]
  | (k, c, i) :: rest, pid, isCorrect =>
    if k = pid then
      (k, (if isCorrect then c + 1 else c), (if isCorrect then i else i + 1)) :: rest
    else (k, c, i) :: bump_stat rest pid isCorrect

/-- `end_session(store_summary)`. -/
def end_session (store_summary : Bool) (s : SessionState) : SessionState :=
  let summ : Summary :=
    { total := s.session_total, correct := s.session_correct.card,
      incorrect := s.session_incorrect.card, repeat_events := s.repeat_events }
  let s1 := if store_summary then { s with finished_summary := some summ } else s
  { s1 with in_session := false, queue := [], revealed := false }

/-- `start_mastery_session(ids)`.  `random.shuffle` is modelled by taking the
shuffled queue as the argument; theorems quantify over every permutation of
the intended `ids`.  The final `if st.session_state.queue:` guard means the
selected card changes only when the queue is non-empty. -/
def start_mastery_session (shuffled : List String) (s : SessionState) : SessionState :=
  { s with queue := shuffled,
           session_correct := ∅,
           session_incorrect := ∅,
           repeat_events := 0,
           session_total := shuffled.length,
           finished_summary := none,
           in_session := true,
           revealed := false,
           selected_id := match shuffled with
             | [] => s.selected_id
             | x :: _ => some x }

/-- `reshuffle_session()`, with the reshuffled queue passed explicitly.  The
guard makes it a no-op unless a session is running with a non-empty queue; in
the live branch the shuffled queue is a permutation of the non-empty current
queue, so the `[]` case of the selected-card update is unreachable. -/
def reshuffle_session (shuffled : List String) (s : SessionState) : SessionState :=
  if s.in_session = true ∧ s.queue ≠ [] then
    { s with queue := shuffled,
             revealed := false,
             selected_id := match shuffled with
               | [] => s.selected_id
               | x :: _ => some x }
  else s

/-- `browse_next()`, with the ambient `filtered_ids` passed explicitly.
Python's `filtered_ids.index(...)` raises when the selection is absent (the
spec calls this an invariant violation of the caller); in that case no further
field is written, so the state is returned unchanged. -/
def browse_next (filtered_ids : List String) (s : SessionState) : SessionState :=
  match s.selected_id with
  | none => s
  | some pid =>
    match filtered_ids.indexOf? pid with
    | none => s
    | some i =>
      { s with selected_id := some (filtered_ids.getD ((i + 1) % filtered_ids.length) pid),
               revealed := if s.auto_hide_on_next then false else s.revealed }

/-- Python `list.insert(n, a)`: insert at position `n`, clamped to the end of
the list when `n` exceeds the length. -/
def pyInsert : Nat → String → List String → List String
  | 0, a, l => a :: l
  | _ + 1, a, [] => [a]
  | n + 1, a, x :: xs => x :: pyInsert n a xs

/-- `mark_correct(pid)`.  The session sets and lifetime stats are updated
unconditionally; queue manipulation (or, out of session, `browse_next`)
follows. -/
def mark_correct (filtered_ids : List String) (pid : String)
    (s : SessionState) : SessionState :=
  let s1 := { s with session_correct := insert pid s.session_correct,
                     session_incorrect := s.session_incorrect.erase pid,
                     stats := bump_stat s.stats pid true }
  if s1.in_session then
    let q := s1.queue.filter (fun x => x ≠ pid)
    if hq : q = [] then end_session true { s1 with queue := q, revealed := false }
    else { s1 with queue := q, revealed := false, selected_id := some (q.head hq) }
  else browse_next filtered_ids s1

/-- `mark_incorrect(pid, repeat_after)`.  In session: remove `pid`, reinsert
at `min(repeat_after, len(qlist))`, bump the repeat counter; the reinserted
queue is never empty, so the selected card is its head. -/
def mark_incorrect (filtered_ids : List String) (pid : String)
    (repeat_after : Nat) (s : SessionState) : SessionState :=
  let s1 := { s with session_incorrect := insert pid s.session_incorrect,
                     session_correct := s.session_correct.erase pid,
                     stats := bump_stat s.stats pid false }
  if s1.in_session then
    let qlist := s1.queue.filter (fun x => x ≠ pid)
    let q2 := pyInsert (min repeat_after qlist.length) pid qlist
    if hq : q2 = [] then
      { s1 with repeat_events := s1.repeat_events + 1, queue := q2, revealed := false }
    else
      { s1 with repeat_events := s1.repeat_events + 1, queue := q2, revealed := false,
                selected_id := some (q2.head hq) }
  else browse_next filtered_ids s1

/-- States reachable from `initState` by the session operations, with the two
shuffles quantified over all permutations of their input. -/
inductive Reachable (filtered_ids : List String) : SessionState → Prop
  | init : Reachable filtered_ids initState
  | start (s : SessionState) (ids shuffled : List String) :
      Reachable filtered_ids s → shuffled.Perm ids →
      Reachable filtered_ids (start_mastery_session shuffled s)
  | reshuffle (s : SessionState) (shuffled : List String) :
      Reachable filtered_ids s → shuffled.Perm s.queue →
      Reachable filtered_ids (reshuffle_session shuffled s)
  | correct (s : SessionState) (pid : String) :
      Reachable filtered_ids s →
      Reachable filtered_ids (mark_correct filtered_ids pid s)
  | incorrect (s : SessionState) (pid : String) (repeat_after : Nat) :
      Reachable filtered_ids s →
      Reachable filtered_ids (mark_incorrect filtered_ids pid repeat_after s)
  | endSession (s : SessionState) (store_summary : Bool) :
      Reachable filtered_ids s →
      Reachable filtered_ids (end_session store_summary s)

/-! ## Summary accuracy -/

/-- `round(x, 1)`: one decimal place.  (Python rounds ties to even on binary
floats; the argument of every rounding in this development is an exact
one-decimal quantity away from ties, where every rounding convention agrees.) -/
def round1 (x : ℚ) : ℚ := (round (10 * x) : ℤ) / 10

/-- `accuracy = round(100 * (s["correct"] / max(1, s["total"])), 1)`. -/
def accuracy (s : Summary) : ℚ :=
  round1 (100 * ((s.correct : ℚ) / (max 1 (s.total : ℚ))))

/-! ## Helper lemmas -/

theorem pyInsert_length (n : Nat) (a : String) (l : List String) :
    (pyInsert n a l).length = l.length + 1 := by
  induction l generalizing n with
  | nil => cases n <;> rfl
  | cons x xs ih =>
    cases n with
    | zero => rfl
    | succ m => simpa [pyInsert] using ih m

theorem pyInsert_ne_nil (n : Nat) (a : String) (l : List String) :
    pyInsert n a l ≠ [] := by
  cases n <;> cases l <;> simp [pyInsert]

theorem pyInsert_getElem (n : Nat) (a : String) (l : List String)
    (h : n ≤ l.length) : (pyInsert n a l)[n]? = some a := by
  induction l generalizing n with
  | nil =>
    have hn : n = 0 := by simpa using h
    subst hn
    rfl
  | cons x xs ih =>
    cases n with
    | zero => rfl
    | succ m => simpa [pyInsert] using ih m (by simpa using h)

theorem length_filter_ne (pid : String) (l : List String) :
    (l.filter (fun x => x ≠ pid)).length + l.count pid = l.length := by
  induction l with
  | nil => simp
  | cons x xs ih =>
    by_cases hx : x = pid
    · subst hx
      rw [List.filter_cons_of_neg (by simp), List.count_cons_self,
        List.length_cons, ← ih]
      omega
    · rw [List.filter_cons_of_pos (by simp [hx]),
        List.count_cons_of_ne (Ne.symm hx)]
      simp only [List.length_cons]
      omega

theorem browse_next_frame (f : List String) (s : SessionState) :
    (browse_next f s).in_session = s.in_session ∧
    (browse_next f s).queue = s.queue ∧
    (browse_next f s).session_correct = s.session_correct ∧
    (browse_next f s).session_incorrect = s.session_incorrect ∧
    (browse_next f s).repeat_events = s.repeat_events ∧
    (browse_next f s).session_total = s.session_total ∧
    (browse_next f s).finished_summary = s.finished_summary ∧
    (browse_next f s).stats = s.stats := by
  unfold browse_next
  split
  · exact ⟨rfl, rfl, rfl, rfl, rfl, rfl, rfl, rfl⟩
  · split
    · exact ⟨rfl, rfl, rfl, rfl, rfl, rfl, rfl, rfl⟩
    · exact ⟨rfl, rfl, rfl, rfl, rfl, rfl, rfl, rfl⟩

theorem end_session_fields (b : Bool) (s : SessionState) :
    (end_session b s).session_correct = s.session_correct ∧
    (end_session b s).session_incorrect = s.session_incorrect ∧
    (end_session b s).repeat_events = s.repeat_events ∧
    (end_session b s).session_total = s.session_total ∧
    (end_session b s).stats = s.stats ∧
    (end_session b s).in_session = false ∧
    (end_session b s).queue = [] := by
  unfold end_session
  cases b <;> exact ⟨rfl, rfl, rfl, rfl, rfl, rfl, rfl⟩

theorem mark_correct_sets (f : List String) (pid : String) (s : SessionState) :
    (mark_correct f pid s).session_correct = insert pid s.session_correct ∧
    (mark_correct f pid s).session_incorrect = s.session_incorrect.erase pid := by
  unfold mark_correct
  dsimp only
  split
  · split
    · obtain ⟨h1, h2, -⟩ := end_session_fields true
        { s with session_correct := insert pid s.session_correct,
                 session_incorrect := s.session_incorrect.erase pid,
                 stats := bump_stat s.stats pid true, queue := [], revealed := false }
      exact ⟨h1, h2⟩
    · exact ⟨rfl, rfl⟩
  · obtain ⟨-, -, h3, h4, -⟩ := browse_next_frame f
      { s with session_correct := insert pid s.session_correct,
               session_incorrect := s.session_incorrect.erase pid,
               stats := bump_stat s.stats pid true }
    exact ⟨h3, h4⟩

theorem mark_incorrect_sets (f : List String) (pid : String) (r : Nat)
    (s : SessionState) :
    (mark_incorrect f pid r s).session_incorrect = insert pid s.session_incorrect ∧
    (mark_incorrect f pid r s).session_correct = s.session_correct.erase pid := by
  unfold mark_incorrect
  dsimp only
  split
  · split
    · exact ⟨rfl, rfl⟩
    · exact ⟨rfl, rfl⟩
  · obtain ⟨-, -, h3, h4, -⟩ := browse_next_frame f
      { s with session_incorrect := insert pid s.session_incorrect,
               session_correct := s.session_correct.erase pid,
               stats := bump_stat s.stats pid false }
    exact ⟨h4, h3⟩

theorem reshuffle_session_sets (q : List String) (s : SessionState) :
    (reshuffle_session q s).session_correct = s.session_correct ∧
    (reshuffle_session q s).session_incorrect = s.session_incorrect := by
  unfold reshuffle_session
  split
  · exact ⟨rfl, rfl⟩
  · exact ⟨rfl, rfl⟩

/-! ## Claim theorems -/

/-- C1, counterexample: calling `start` with an empty id list is not a no-op on
the session state — it flips the `active` flag to true (and, from a non-fresh
state, also resets the counters and sets), contradicting the claimed
"silent no-op, state left entirely unchanged". -/
theorem start_empty_changes_state :
    start_mastery_session [] initState ≠ initState ∧
    (start_mastery_session [] initState).in_session = true ∧
    initState.in_session = false := by decide

/-- C1, amended: calling `start` with an empty id list raises no error but is
not a no-op: it clears the queue, resets both grading sets, the repeat counter
and the total to zero, clears the summary, and sets the active flag — leaving
only the selected card, the stats and the UI toggles unchanged. -/
theorem start_empty_behavior (s : SessionState) :
    start_mastery_session [] s =
      { s with queue := [], session_correct := ∅, session_incorrect := ∅,
               repeat_events := 0, session_total := 0, finished_summary := none,
               in_session := true, revealed := false } := rfl

/-- C2: while a session is running and the graded id occurs exactly once in the
queue, `gradeIncorrect(id, repeatAfter)` preserves the queue length and
reinserts the id at position `min(repeatAfter, length of the queue after
removing the id)` (that length being `len(queue) - 1`). -/
theorem gradeIncorrect_queue_conservation (f : List String) (s : SessionState)
    (pid : String) (r : Nat) (hin : s.in_session = true)
    (hcount : s.queue.count pid = 1) :
    (mark_incorrect f pid r s).queue.length = s.queue.length ∧
    (mark_incorrect f pid r s).queue[min r (s.queue.length - 1)]? = some pid := by
  have hflen : (s.queue.filter (fun x => x ≠ pid)).length + 1 = s.queue.length := by
    have h := length_filter_ne pid s.queue
    omega
  unfold mark_incorrect
  dsimp only
  rw [if_pos hin]
  split
  · next hq2 => exact absurd hq2 (pyInsert_ne_nil _ _ _)
  · constructor
    · dsimp only
      rw [pyInsert_length]
      omega
    · dsimp only
      have hmin : min r (s.queue.length - 1)
          = min r (s.queue.filter (fun x => x ≠ pid)).length := by omega
      rw [hmin]
      exact pyInsert_getElem _ _ _ (Nat.min_le_right _ _)

/-- C2, witness at a concrete running session. -/
theorem gradeIncorrect_queue_conservation_witness :
    (mark_incorrect [] "b" 5 (start_mastery_session ["a", "b", "c"] initState)).queue.length
        = (start_mastery_session ["a", "b", "c"] initState).queue.length ∧
    (mark_incorrect [] "b" 5 (start_mastery_session ["a", "b", "c"] initState)).queue[min 5 ((start_mastery_session ["a", "b", "c"] initState).queue.length - 1)]?
        = some "b" :=
  gradeIncorrect_queue_conservation [] (start_mastery_session ["a", "b", "c"] initState)
    "b" 5 (by decide) (by decide)

/-- C9: summary accuracy is `round(100 * correct / max(1, total), 1)`; on the
summary `{total := 10, correct := 7, incorrect := 3}` it computes to `70.0`
for every repeat count, and the `max(1, total)` guard keeps the divisor
positive for every total, including `total = 0`. -/
theorem accuracy_spec :
    (∀ k : Nat, accuracy ⟨10, 7, 3, k⟩ = 70) ∧
    (∀ s : Summary, (0 : ℚ) < max 1 (s.total : ℚ)) := by
  constructor
  · intro k
    norm_num [accuracy, round1]
  · intro s
    exact lt_of_lt_of_le zero_lt_one (le_max_left _ _)

/-- C10: while a session is running with a non-empty queue, `gradeIncorrect`
never ends it: afterwards the active flag is still set and the queue is still
non-empty (removal is followed by reinsertion of the same id). -/
theorem gradeIncorrect_keeps_session (f : List String) (s : SessionState)
    (pid : String) (r : Nat) (hin : s.in_session = true) (hq : s.queue ≠ []) :
    (mark_incorrect f pid r s).in_session = true ∧
    (mark_incorrect f pid r s).queue ≠ [] := by
  unfold mark_incorrect
  dsimp only
  rw [if_pos hin]
  split
  · next hq2 => exact absurd hq2 (pyInsert_ne_nil _ _ _)
  · next hq2 => exact ⟨hin, hq2⟩

/-- C10, witness at a concrete running session. -/
theorem gradeIncorrect_keeps_session_witness :
    (mark_incorrect ["a"] "a" 2 (start_mastery_session ["a", "b"] initState)).in_session = true ∧
    (mark_incorrect ["a"] "a" 2 (start_mastery_session ["a", "b"] initState)).queue ≠ [] :=
  gradeIncorrect_keeps_session ["a"] (start_mastery_session ["a", "b"] initState)
    "a" 2 (by decide) (by decide)

/-- C3: in every state reachable from the initial state by any sequence of
`start`, `reshuffle`, `gradeCorrect`, `gradeIncorrect` and `end`, the
session sets `correctSet` and `incorrectSet` are disjoint: grading adds the id
to one set and removes it from the other. -/
theorem reachable_sets_disjoint (f : List String) (s : SessionState)
    (h : Reachable f s) :
    Disjoint s.session_correct s.session_incorrect := by
  induction h with
  | init => simp [initState]
  | start s' ids shuffled hr hperm ih => simp [start_mastery_session]
  | reshuffle s' shuffled hr hperm ih =>
    obtain ⟨h1, h2⟩ := reshuffle_session_sets shuffled s'
    rw [h1, h2]
    exact ih
  | correct s' pid hr ih =>
    obtain ⟨h1, h2⟩ := mark_correct_sets f pid s'
    rw [h1, h2, Finset.disjoint_insert_left]
    exact ⟨Finset.not_mem_erase _ _, ih.mono_right (Finset.erase_subset _ _)⟩
  | incorrect s' pid r hr ih =>
    obtain ⟨h1, h2⟩ := mark_incorrect_sets f pid r s'
    rw [h1, h2, Finset.disjoint_insert_right]
    exact ⟨Finset.not_mem_erase _ _, ih.mono_left (Finset.erase_subset _ _)⟩
  | endSession s' b hr ih =>
    obtain ⟨h1, h2, -⟩ := end_session_fields b s'
    rw [h1, h2]
    exact ih

/-- C3, witness along a concrete reachable run (start then one grading). -/
theorem reachable_sets_disjoint_witness :
    Disjoint (mark_correct ["a", "b"] "a" (start_mastery_session ["a", "b"] initState)).session_correct
      (mark_correct ["a", "b"] "a" (start_mastery_session ["a", "b"] initState)).session_incorrect :=
  reachable_sets_disjoint ["a", "b"] _
    (Reachable.correct _ "a"
      (Reachable.start initState ["a", "b"] ["a", "b"] Reachable.init (List.Perm.refl _)))

/-- C5, counterexample: out-of-session grading does NOT leave the session
sets unchanged — `mark_correct` adds the id to `correctSet` unconditionally,
before the `in_session` branch. -/
theorem idle_grading_mutates_sets :
    initState.in_session = false ∧
    (mark_correct ["a", "b"] "a" { initState with selected_id := some "a" }).session_correct
      ≠ ({ initState with selected_id := some "a" } : SessionState).session_correct := by
  decide

/-- C5, amended: grading while no session is active updates the lifetime
stats, the browse position (via `browse_next`) and also the session sets
(insert into one, erase from the other, exactly as in-session grading does);
the queue, active flag, repeat counter, total and summary are unchanged. -/
theorem idle_grading_effects (f : List String) (s : SessionState) (pid : String)
    (r : Nat) (hin : s.in_session = false) :
    mark_correct f pid s =
      browse_next f { s with session_correct := insert pid s.session_correct,
                             session_incorrect := s.session_incorrect.erase pid,
                             stats := bump_stat s.stats pid true } ∧
    mark_incorrect f pid r s =
      browse_next f { s with session_incorrect := insert pid s.session_incorrect,
                             session_correct := s.session_correct.erase pid,
                             stats := bump_stat s.stats pid false } ∧
    (mark_correct f pid s).queue = s.queue ∧
    (mark_correct f pid s).in_session = false ∧
    (mark_correct f pid s).repeat_events = s.repeat_events ∧
    (mark_correct f pid s).session_total = s.session_total ∧
    (mark_correct f pid s).finished_summary = s.finished_summary ∧
    (mark_incorrect f pid r s).queue = s.queue ∧
    (mark_incorrect f pid r s).in_session = false ∧
    (mark_incorrect f pid r s).repeat_events = s.repeat_events ∧
    (mark_incorrect f pid r s).session_total = s.session_total ∧
    (mark_incorrect f pid r s).finished_summary = s.finished_summary := by
  have hnot : ¬ (s.in_session = true) := by simp [hin]
  have hmc : mark_correct f pid s =
      browse_next f { s with session_correct := insert pid s.session_correct,
                             session_incorrect := s.session_incorrect.erase pid,
                             stats := bump_stat s.stats pid true } := by
    unfold mark_correct
    dsimp only
    rw [if_neg hnot]
  have hmi : mark_incorrect f pid r s =
      browse_next f { s with session_incorrect := insert pid s.session_incorrect,
                             session_correct := s.session_correct.erase pid,
                             stats := bump_stat s.stats pid false } := by
    unfold mark_incorrect
    dsimp only
    rw [if_neg hnot]
  obtain ⟨bc1, bc2, -, -, bc5, bc6, bc7, -⟩ := browse_next_frame f
      { s with session_correct := insert pid s.session_correct,
               session_incorrect := s.session_incorrect.erase pid,
               stats := bump_stat s.stats pid true }
  obtain ⟨bi1, bi2, -, -, bi5, bi6, bi7, -⟩ := browse_next_frame f
      { s with session_incorrect := insert pid s.session_incorrect,
               session_correct := s.session_correct.erase pid,
               stats := bump_stat s.stats pid false }
  refine ⟨hmc, hmi, ?_, ?_, ?_, ?_, ?_, ?_, ?_, ?_, ?_, ?_⟩
  · rw [hmc]; exact bc2
  · rw [hmc]; exact bc1.trans hin
  · rw [hmc]; exact bc5
  · rw [hmc]; exact bc6
  · rw [hmc]; exact bc7
  · rw [hmi]; exact bi2
  · rw [hmi]; exact bi1.trans hin
  · rw [hmi]; exact bi5
  · rw [hmi]; exact bi6
  · rw [hmi]; exact bi7

/-- C5, amended, witness at a concrete idle state. -/
theorem idle_grading_effects_witness :
    mark_correct ["a"] "a" { initState with selected_id := some "a" } =
      browse_next ["a"] { { initState with selected_id := some "a" } with
        session_correct := insert "a" ({ initState with selected_id := some "a" } : SessionState).session_correct,
        session_incorrect := ({ initState with selected_id := some "a" } : SessionState).session_incorrect.erase "a",
        stats := bump_stat ({ initState with selected_id := some "a" } : SessionState).stats "a" true } ∧
    mark_incorrect ["a"] "a" 0 { initState with selected_id := some "a" } =
      browse_next ["a"] { { initState with selected_id := some "a" } with
        session_incorrect := insert "a" ({ initState with selected_id := some "a" } : SessionState).session_incorrect,
        session_correct := ({ initState with selected_id := some "a" } : SessionState).session_correct.erase "a",
        stats := bump_stat ({ initState with selected_id := some "a" } : SessionState).stats "a" false } ∧
    (mark_correct ["a"] "a" { initState with selected_id := some "a" }).queue
      = ({ initState with selected_id := some "a" } : SessionState).queue ∧
    (mark_correct ["a"] "a" { initState with selected_id := some "a" }).in_session = false ∧
    (mark_correct ["a"] "a" { initState with selected_id := some "a" }).repeat_events
      = ({ initState with selected_id := some "a" } : SessionState).repeat_events ∧
    (mark_correct ["a"] "a" { initState with selected_id := some "a" }).session_total
      = ({ initState with selected_id := some "a" } : SessionState).session_total ∧
    (mark_correct ["a"] "a" { initState with selected_id := some "a" }).finished_summary
      = ({ initState with selected_id := some "a" } : SessionState).finished_summary ∧
    (mark_incorrect ["a"] "a" 0 { initState with selected_id := some "a" }).queue
      = ({ initState with selected_id := some "a" } : SessionState).queue ∧
    (mark_incorrect ["a"] "a" 0 { initState with selected_id := some "a" }).in_session = false ∧
    (mark_incorrect ["a"] "a" 0 { initState with selected_id := some "a" }).repeat_events
      = ({ initState with selected_id := some "a" } : SessionState).repeat_events ∧
    (mark_incorrect ["a"] "a" 0 { initState with selected_id := some "a" }).session_total
      = ({ initState with selected_id := some "a" } : SessionState).session_total ∧
    (mark_incorrect ["a"] "a" 0 { initState with selected_id := some "a" }).finished_summary
      = ({ initState with selected_id := some "a" } : SessionState).finished_summary :=
  idle_grading_effects ["a"] { initState with selected_id := some "a" } "a" 0 rfl

/-- Pointwise agreement of the code's `match` with the spec's matching rule. -/
theorem phrase_match_iff (q : String) (fav_only : Bool) (favs : Finset String)
    (p : Phrase) :
    phrase_match q fav_only favs p = true ↔ spec_match q fav_only favs p := by
  unfold phrase_match spec_match
  by_cases hf : fav_only = true
  · by_cases hmem : p.id ∈ favs
    · by_cases hq : pyStrip q = "" <;> simp [hf, hmem, hq]
    · simp [hf, hmem]
  · by_cases hq : pyStrip q = "" <;> simp [hf, hq]

/-- C7: the filter is a stable subsequence of its input, and a phrase is kept
iff it satisfies the query/favorites predicate: the query is empty after
trimming or the lowercased trimmed query occurs as a substring of the
lowercased primary text or of the lowercased gloss text, and, when
favorites-only is set, the phrase's id is in the favorite set. -/
theorem filtered_stable_iff_spec (phrases : List Phrase) (q : String)
    (fav_only : Bool) (favs : Finset String) :
    List.Sublist (filtered_phrases phrases q fav_only favs) phrases ∧
    (∀ p : Phrase, p ∈ filtered_phrases phrases q fav_only favs ↔
      p ∈ phrases ∧ spec_match q fav_only favs p) := by
  constructor
  · exact List.filter_sublist _
  · intro p
    rw [filtered_phrases, List.mem_filter, phrase_match_iff]

/-- The resolved base id in the form stated by the spec: the stripped source
id, or the zero-padded sequence default when the source id is missing or
empty/whitespace-only. -/
theorem resolveBaseId_eq (i : Nat) (o : Option String) :
    resolveBaseId i o =
      if pyStrip (o.getD "") = "" then pad4 (i + 1) else pyStrip (o.getD "") := by
  have h0 : pyStrip "" = "" := by decide
  unfold resolveBaseId
  cases o with
  | none => simp [h0]
  | some s =>
    dsimp only [Option.getD]
    by_cases hs : s = ""
    · subst hs
      simp [h0]
    · rw [if_neg hs]

/-- Membership characterization for the loader loop, at any start index. -/
theorem loadDeckAux_mem (deckName : String) (entries : List Entry) (i0 : Nat)
    (p : Phrase) (hp : p ∈ loadDeckAux deckName i0 entries) :
    ∃ j r, entries[j]? = some (Entry.obj r) ∧
      p = normalizeRecord deckName (i0 + j) r ∧
      ¬ (pyStrip (r.koine.getD "") = "" ∧ pyStrip (r.english.getD "") = "") := by
  induction entries generalizing i0 with
  | nil => simp [loadDeckAux] at hp
  | cons e rest ih =>
    cases e with
    | nonObj =>
      rw [loadDeckAux] at hp
      obtain ⟨j, r, h1, h2, h3⟩ := ih (i0 + 1) hp
      have hidx : i0 + 1 + j = i0 + (j + 1) := by omega
      rw [hidx] at h2
      exact ⟨j + 1, r, by simpa using h1, h2, h3⟩
    | obj r0 =>
      rw [loadDeckAux] at hp
      by_cases hdisc : (normalizeRecord deckName i0 r0).koine = ""
          ∧ (normalizeRecord deckName i0 r0).english = ""
      · rw [if_pos hdisc] at hp
        obtain ⟨j, r, h1, h2, h3⟩ := ih (i0 + 1) hp
        have hidx : i0 + 1 + j = i0 + (j + 1) := by omega
        rw [hidx] at h2
        exact ⟨j + 1, r, by simpa using h1, h2, h3⟩
      · rw [if_neg hdisc] at hp
        rcases List.mem_cons.mp hp with heq | hp'
        · refine ⟨0, r0, by simp, heq, ?_⟩
          simpa [normalizeRecord] using hdisc
        · obtain ⟨j, r, h1, h2, h3⟩ := ih (i0 + 1) hp'
          have hidx : i0 + 1 + j = i0 + (j + 1) := by omega
          rw [hidx] at h2
          exact ⟨j + 1, r, by simpa using h1, h2, h3⟩

/-- C8: every phrase produced by the loader comes from an object entry whose
`koine` or `english` survives trimming (records empty on both are discarded,
non-object entries yield nothing), carries that record's normalized fields,
and has id `deckName ++ ":" ++ base` where `base` is the stripped source id,
or the zero-padded 4-digit sequence number `i+1` when the source id is
missing or empty after trimming. -/
theorem loader_output_characterization (deckName : String) (entries : List Entry)
    (p : Phrase) (hp : p ∈ load_deck_file deckName entries) :
    ¬ (p.koine = "" ∧ p.english = "") ∧
    ∃ i r, entries[i]? = some (Entry.obj r) ∧
      p = normalizeRecord deckName i r ∧
      ¬ (pyStrip (r.koine.getD "") = "" ∧ pyStrip (r.english.getD "") = "") ∧
      p.id = deckName ++ ":" ++
        (if pyStrip (r.id.getD "") = "" then pad4 (i + 1) else pyStrip (r.id.getD "")) := by
  obtain ⟨j, r, h1, h2, h3⟩ := loadDeckAux_mem deckName entries 0 p hp
  rw [show (0 + j : Nat) = j by omega] at h2
  constructor
  · rw [h2]
    simpa [normalizeRecord] using h3
  · refine ⟨j, r, h1, h2, h3, ?_⟩
    rw [h2]
    show deckName ++ ":" ++ resolveBaseId j r.id = _
    rw [resolveBaseId_eq]

/-- C8, witness: a three-entry deck with a skipped non-object entry, a
retained record with a defaulted id, and a discarded whitespace-only record. -/
theorem loader_output_characterization_witness :
    ¬ (("hi" : String) = "" ∧ ("" : String) = "") ∧
    ∃ i r,
      ([Entry.nonObj,
        Entry.obj { id := none, koine := some " hi ", english := none, tag := none,
                    audio := none, image := none, meta := MetaField.nonDict },
        Entry.obj { id := some "z", koine := some "  ", english := some " ", tag := none,
                    audio := none, image := none, meta := MetaField.missing }] : List Entry)[i]?
        = some (Entry.obj r) ∧
      ({ id := "d:0002", deck := "d", koine := "hi", english := "", tag := none,
         audio := none, image := none, meta := none } : Phrase)
        = normalizeRecord "d" i r ∧
      ¬ (pyStrip (r.koine.getD "") = "" ∧ pyStrip (r.english.getD "") = "") ∧
      ("d:0002" : String) = "d" ++ ":" ++
        (if pyStrip (r.id.getD "") = "" then pad4 (i + 1) else pyStrip (r.id.getD "")) :=
  loader_output_characterization "d"
    [Entry.nonObj,
     Entry.obj { id := none, koine := some " hi ", english := none, tag := none,
                 audio := none, image := none, meta := MetaField.nonDict },
     Entry.obj { id := some "z", koine := some "  ", english := some " ", tag := none,
                 audio := none, image := none, meta := MetaField.missing }]
    { id := "d:0002", deck := "d", koine := "hi", english := "", tag := none,
      audio := none, image := none, meta := none }
    (by decide)

/-- C6, counterexample: the loader does not enforce id uniqueness — one deck
whose source records carry the same non-empty `id` yields two phrases with the
identical global id. -/
theorem loader_id_collision :
    (load_decks [("d",
        [Entry.obj { id := some "a", koine := some "x", english := none, tag := none,
                     audio := none, image := none, meta := MetaField.missing },
         Entry.obj { id := some "a", koine := some "y", english := none, tag := none,
                     audio := none, image := none, meta := MetaField.missing }])]).map Phrase.id
      = ["d:a", "d:a"] ∧
    ¬ ((load_decks [("d",
        [Entry.obj { id := some "a", koine := some "x", english := none, tag := none,
                     audio := none, image := none, meta := MetaField.missing },
         Entry.obj { id := some "a", koine := some "y", english := none, tag := none,
                     audio := none, image := none, meta := MetaField.missing }])]).map Phrase.id).Nodup := by
  decide

/-- Appending to a fixed string on the left is injective. -/
theorem string_append_left_cancel (a : String) :
    Function.Injective (fun b => a ++ b) := by
  intro b c h
  apply String.ext
  have hd := congrArg String.data h
  simp only [String.data_append] at hd
  exact List.append_cancel_left hd

/-- Two colon-tagged character lists agree on their colon-free heads. -/
theorem append_colon_head_inj (xs : List Char) :
    ∀ ys as bs : List Char, ':' ∉ xs → ':' ∉ ys →
      xs ++ ':' :: as = ys ++ ':' :: bs → xs = ys := by
  induction xs with
  | nil =>
    intro ys as bs _ hy h
    cases ys with
    | nil => rfl
    | cons y ys' =>
      rw [List.nil_append, List.cons_append, List.cons.injEq] at h
      exact absurd (h.1 ▸ List.mem_cons_self y ys') hy
  | cons x xs' ih =>
    intro ys as bs hx hy h
    cases ys with
    | nil =>
      rw [List.nil_append, List.cons_append, List.cons.injEq] at h
      exact absurd (h.1.symm ▸ List.mem_cons_self x xs') hx
    | cons y ys' =>
      rw [List.cons_append, List.cons_append, List.cons.injEq] at h
      obtain ⟨rfl, h2⟩ := h
      rw [ih ys' as bs (fun hm => hx (List.mem_cons_of_mem _ hm))
        (fun hm => hy (List.mem_cons_of_mem _ hm)) h2]

/-- Colon-free deck names are recoverable from `name ++ ":" ++ base` ids. -/
theorem deck_of_global_id (n1 n2 b1 b2 : String)
    (h1 : ':' ∉ n1.data) (h2 : ':' ∉ n2.data)
    (h : n1 ++ ":" ++ b1 = n2 ++ ":" ++ b2) : n1 = n2 := by
  have hd := congrArg String.data h
  simp only [String.data_append] at hd
  rw [List.append_assoc, List.append_assoc, List.singleton_append,
    List.singleton_append] at hd
  exact String.ext (append_colon_head_inj n1.data n2.data b1.data b2.data h1 h2 hd)

/-- The ids produced by the loader loop form a sublist of the tagged resolved
base ids (discarded records are skipped, nothing else changes the order). -/
theorem loadDeckAux_ids_sublist (deckName : String) (entries : List Entry) :
    ∀ i : Nat, List.Sublist ((loadDeckAux deckName i entries).map Phrase.id)
      ((baseIdsAux i entries).map (fun b => deckName ++ ":" ++ b)) := by
  induction entries with
  | nil => intro i; simp [loadDeckAux, baseIdsAux]
  | cons e rest ih =>
    intro i
    cases e with
    | nonObj =>
      rw [loadDeckAux, baseIdsAux]
      exact ih (i + 1)
    | obj r =>
      rw [loadDeckAux, baseIdsAux]
      by_cases hdisc : (normalizeRecord deckName i r).koine = ""
          ∧ (normalizeRecord deckName i r).english = ""
      · rw [if_pos hdisc]
        exact (ih (i + 1)).trans (List.sublist_cons_self _ _)
      · rw [if_neg hdisc]
        rw [List.map_cons]
        exact List.Sublist.cons₂ _ (ih (i + 1))

/-- Every id the loader outputs is the deck name, a colon, and a base id. -/
theorem load_deck_file_id_shape (deckName : String) (entries : List Entry)
    (x : String) (hx : x ∈ (load_deck_file deckName entries).map Phrase.id) :
    ∃ b, x = deckName ++ ":" ++ b := by
  have hsub := loadDeckAux_ids_sublist deckName entries 0
  have hx2 := hsub.subset hx
  obtain ⟨b, -, hb⟩ := List.mem_map.mp hx2
  exact ⟨b, hb.symm⟩

/-- C6, amended: phrase ids are globally unique provided the resolved base
ids within each deck are pairwise distinct and the deck names are pairwise
distinct and colon-free.  (Without those provisos uniqueness fails, see the
counterexample: the loader never deduplicates.) -/
theorem loader_ids_nodup (decks : List (String × List Entry))
    (hnames : (decks.map Prod.fst).Nodup)
    (hcolon : ∀ d ∈ decks, ':' ∉ d.1.data)
    (hbases : ∀ d ∈ decks, (deckBaseIds d.2).Nodup) :
    ((load_decks decks).map Phrase.id).Nodup := by
  rw [load_decks, List.map_flatten, List.nodup_flatten]
  constructor
  · intro l hl
    obtain ⟨l0, hl0, rfl⟩ := List.mem_map.mp hl
    obtain ⟨d, hd, rfl⟩ := List.mem_map.mp hl0
    have hnd : ((deckBaseIds d.2).map (fun b => d.1 ++ ":" ++ b)).Nodup :=
      (hbases d hd).map (string_append_left_cancel (d.1 ++ ":"))
    exact (loadDeckAux_ids_sublist d.1 d.2 0).nodup hnd
  · rw [List.pairwise_map, List.pairwise_map]
    have hpw : decks.Pairwise (fun d1 d2 => d1.1 ≠ d2.1) :=
      List.pairwise_map.mp hnames
    refine hpw.imp_of_mem ?_
    intro d1 d2 h1 h2 hne x hx1 hx2
    obtain ⟨b1, hb1⟩ := load_deck_file_id_shape d1.1 d1.2 x hx1
    obtain ⟨b2, hb2⟩ := load_deck_file_id_shape d2.1 d2.2 x hx2
    exact hne (deck_of_global_id d1.1 d2.1 b1 b2 (hcolon d1 h1) (hcolon d2 h2)
      (hb1.symm.trans hb2))

/-- C6, amended, witness: two decks with distinct colon-free names and
duplicate-free base ids load to globally distinct ids. -/
theorem loader_ids_nodup_witness :
    ((load_decks [("d1",
        [Entry.obj { id := some "a", koine := some "x", english := none, tag := none,
                     audio := none, image := none, meta := MetaField.missing },
         Entry.obj { id := none, koine := some "y", english := none, tag := none,
                     audio := none, image := none, meta := MetaField.missing }]),
      ("d2",
        [Entry.obj { id := some "a", koine := some "z", english := none, tag := none,
                     audio := none, image := none, meta := MetaField.missing }])]).map Phrase.id).Nodup :=
  loader_ids_nodup _ (by decide) (by decide) (by decide)

/-- Inserting a freshly graded element moves it across the set difference. -/
theorem insert_sdiff_insert_self (I R : Finset String) (a : String)
    (ha : a ∈ I) (hR : a ∉ R) :
    insert a (I \ insert a R) = I \ R := by
  ext y
  simp only [Finset.mem_insert, Finset.mem_sdiff]
  constructor
  · rintro (rfl | ⟨hy, hy2⟩)
    · exact ⟨ha, hR⟩
    · exact ⟨hy, fun c => hy2 (Or.inr c)⟩
  · rintro ⟨hy, hy2⟩
    by_cases hya : y = a
    · exact Or.inl hya
    · refine Or.inr ⟨hy, ?_⟩
      rintro (rfl | hc)
      · exact hya rfl
      · exact hy2 hc

/-- Grading loop invariant for C4: from a running state whose queue is a
permutation of the ids still to be graded, grading them all correct ends the
session with the expected summary. -/
theorem mark_correct_all_loop (f : List String) (ids : List String) (N : Nat) :
    ∀ (rest : List String) (s : SessionState),
      rest ≠ [] → rest.Nodup → (∀ x ∈ rest, x ∈ ids) →
      s.in_session = true →
      s.queue.Perm rest →
      s.session_correct = ids.toFinset \ rest.toFinset →
      s.session_incorrect = ∅ →
      s.session_total = N →
      s.repeat_events = 0 →
      ((rest.foldl (fun st pid => mark_correct f pid st) s).in_session = false ∧
       (rest.foldl (fun st pid => mark_correct f pid st) s).queue = [] ∧
       (rest.foldl (fun st pid => mark_correct f pid st) s).finished_summary
         = some ⟨N, ids.toFinset.card, 0, 0⟩) := by
  intro rest
  induction rest with
  | nil => intro s hne; exact absurd rfl hne
  | cons pid rest' ih =>
    intro s hne hnd hsub hin hperm hcor hinc htot hrep
    have hpidmem : pid ∈ ids := hsub pid (List.mem_cons_self _ _)
    have hpid_not_rest' : pid ∉ rest' := (List.nodup_cons.mp hnd).1
    have hfe : (pid :: rest').filter (fun x => x ≠ pid) = rest' := by
      rw [List.filter_cons_of_neg (by simp)]
      apply List.filter_eq_self.mpr
      intro a ha
      simp only [ne_eq, decide_eq_true_eq]
      exact fun heq => hpid_not_rest' (heq ▸ ha)
    have hfilter_perm : (s.queue.filter (fun x => x ≠ pid)).Perm rest' := by
      have h1 := hperm.filter (fun x => (decide (x ≠ pid)))
      rwa [hfe] at h1
    rw [List.foldl_cons]
    cases rest' with
    | nil =>
      have hq_nil : s.queue.filter (fun x => x ≠ pid) = [] := by
        have h2 : (s.queue.filter (fun x => x ≠ pid)).Perm [] := hfilter_perm
        exact h2.eq_nil
      rw [List.foldl_nil]
      unfold mark_correct
      dsimp only
      rw [if_pos hin, dif_pos hq_nil]
      unfold end_session
      dsimp only
      refine ⟨rfl, rfl, ?_⟩
      rw [htot, hinc, hrep, hcor]
      rw [List.toFinset_cons, List.toFinset_nil]
      rw [insert_sdiff_insert_self _ _ _ (List.mem_toFinset.mpr hpidmem)
        (Finset.not_mem_empty pid)]
      rw [Finset.sdiff_empty, Finset.erase_empty, Finset.card_empty, if_pos rfl]
    | cons x2 rest'' =>
      have hq_ne : s.queue.filter (fun x => x ≠ pid) ≠ [] := by
        intro hc
        rw [hc] at hfilter_perm
        exact List.cons_ne_nil x2 rest'' hfilter_perm.nil_eq.symm
      unfold mark_correct
      dsimp only
      rw [if_pos hin, dif_neg hq_ne]
      apply ih
      · exact List.cons_ne_nil _ _
      · exact (List.nodup_cons.mp hnd).2
      · exact fun x hx => hsub x (List.mem_cons_of_mem _ hx)
      · exact hin
      · exact hfilter_perm
      · show insert pid s.session_correct = _
        rw [hcor, List.toFinset_cons]
        exact insert_sdiff_insert_self _ _ _ (List.mem_toFinset.mpr hpidmem)
          (fun hc => hpid_not_rest' (by simpa using List.mem_toFinset.mp hc))
      · show s.session_incorrect.erase pid = ∅
        rw [hinc]
        exact Finset.erase_empty pid
      · exact htot
      · exact hrep

/-- C4: starting a session on N distinct ids (N ≥ 1; with zero ids no grading
event can fire) and grading all of them correct, in any order and with no
incorrect gradings, ends the session automatically — the active flag drops,
the queue empties, and the captured summary is
`{total := N, correct := N, incorrect := 0, repeat_events := 0}`. -/
theorem all_correct_completion (f : List String) (ids shuffled order : List String)
    (s0 : SessionState) (hnd : ids.Nodup) (hne : ids ≠ [])
    (hshuf : shuffled.Perm ids) (horder : order.Perm ids) :
    (order.foldl (fun st pid => mark_correct f pid st)
        (start_mastery_session shuffled s0)).in_session = false ∧
    (order.foldl (fun st pid => mark_correct f pid st)
        (start_mastery_session shuffled s0)).queue = [] ∧
    (order.foldl (fun st pid => mark_correct f pid st)
        (start_mastery_session shuffled s0)).finished_summary
      = some ⟨ids.length, ids.length, 0, 0⟩ := by
  have hcard : ids.toFinset.card = ids.length := List.toFinset_card_of_nodup hnd
  have horder_ne : order ≠ [] := by
    intro hc
    rw [hc] at horder
    exact hne horder.nil_eq.symm
  have res := mark_correct_all_loop f ids ids.length order
    (start_mastery_session shuffled s0)
    horder_ne (horder.nodup_iff.mpr hnd) (fun x hx => horder.subset hx)
    rfl
    (hshuf.trans horder.symm)
    (by rw [List.toFinset_eq_of_perm _ _ horder, Finset.sdiff_self]; rfl)
    rfl
    (hshuf.length_eq)
    rfl
  rw [hcard] at res
  exact res

/-- C4, witness: a concrete two-card session, graded in an order different
from the shuffled queue order. -/
theorem all_correct_completion_witness :
    (List.foldl (fun st pid => mark_correct [] pid st)
        (start_mastery_session ["b", "a"] initState) ["a", "b"]).in_session = false ∧
    (List.foldl (fun st pid => mark_correct [] pid st)
        (start_mastery_session ["b", "a"] initState) ["a", "b"]).queue = [] ∧
    (List.foldl (fun st pid => mark_correct [] pid st)
        (start_mastery_session ["b", "a"] initState) ["a", "b"]).finished_summary
      = some ⟨(["a", "b"] : List String).length, (["a", "b"] : List String).length, 0, 0⟩ :=
  all_correct_completion [] ["a", "b"] ["b", "a"] ["a", "b"] initState
    (by decide) (by decide) (by decide) (by decide)

end KoineApp
